import Mathlib

/-!
Verification development for the ChronosRep reputation engine.

Shallow embedding conventions:
* Python `float` arithmetic is modelled over `ℚ`; numeric literals such as
  `0.6` become exact rationals.
* Python `dict`s keyed by hypotheses (frozensets of labels) are modelled as
  association lists `List (κ × ℚ)`; `d.get(k, 0.0)` becomes `dictGet d k`.
* Calls that draw from a seeded pseudo-random generator take the drawn values
  (or the whole draw oracle) as explicit arguments; irrational primitives
  (`sqrt`, `log2`) are passed in as function parameters, and every theorem
  quantifies over them.
-/

namespace ChronosRep

/-- The fixed 3-element frame of discernment `{trusted, untrusted, unknown}`
from `irv_pe.py` / `vcgen.py`. -/
inductive Label where
  | trusted
  | untrusted
  | unknown
deriving DecidableEq, Fintype, Repr

open Label

/-- Models `_FRAME`: the full frame as a `Finset`. -/
def FRAME : Finset Label := {Label.trusted, Label.untrusted, Label.unknown}

/-- Models `_S_TR` -/
def S_TR : Finset Label := {Label.trusted}

/-- Models `_S_UN` -/
def S_UN : Finset Label := {Label.untrusted}

/-- Models `_S_UK` -/
def S_UK : Finset Label := {Label.unknown}

/-- Models `_SUBSETS` from `irv_pe.py`: the 7 non-empty subsets of the frame,
singletons first, then pairs, then the full frame (the iteration order of
the Python powerset; all uses below are order-insensitive sums). -/
def SUBSETS : List (Finset Label) :=
  [ {Label.trusted}, {Label.untrusted}, {Label.unknown},
    {Label.trusted, Label.untrusted}, {Label.trusted, Label.unknown},
    {Label.untrusted, Label.unknown},
    {Label.trusted, Label.untrusted, Label.unknown} ]

/-- A Python dict with rational values, as an association list. -/
abbrev PyDict (κ : Type) := List (κ × ℚ)

/-- Models `d.get(k, 0.0)`: first value bound to `k`, else `0`. -/
def dictGet {κ : Type} [DecidableEq κ] : PyDict κ → κ → ℚ
  | [], _ => 0
  | p :: rest, k => if p.1 = k then p.2 else dictGet rest k

/-- Sum of all values of a dict (Python `sum(d.values())`). -/
def dictSum {κ : Type} (d : PyDict κ) : ℚ := (d.map Prod.snd).sum

/-- A basic belief assignment, as stored in Python: a dict from hypothesis
(non-empty subset of the frame) to mass. -/
abbrev BBA := PyDict (Finset Label)

/-- Models `_conflict_coeff(m1, m2)` from `irv_pe.py`: the conflict mass
`K = Σ_{A,B ∈ SUBSETS, A ∩ B = ∅} m1(A)·m2(B)`, capped at `1.0`. -/
def conflictCoeff (m1 m2 : BBA) : ℚ :=
  min
    ((SUBSETS.map (fun A =>
      (SUBSETS.map (fun B =>
        if A ∩ B = ∅ then dictGet m1 A * dictGet m2 B else 0)).sum)).sum)
    1

/-- The inner mass sum of `_chronosrep_combine` for one hypothesis `A`:
`Σ_{B,C ∈ SUBSETS, B ∩ C = A} m1(B)·m2(C)`. -/
def fusedRaw (m1 m2 : BBA) (A : Finset Label) : ℚ :=
  (SUBSETS.map (fun B =>
    (SUBSETS.map (fun C =>
      if B ∩ C = A then dictGet m1 B * dictGet m2 C else 0)).sum)).sum

/-- Models `_chronosrep_combine(m1, m2)` from `irv_pe.py`: Dempster-style fusion.
If `K ≥ 1` return total ignorance `{Θ: 1}`; otherwise normalize each
hypothesis's mass by `1 - K`, keeping only strictly positive masses. -/
def chronosrepCombine (m1 m2 : BBA) : BBA :=
  let K := conflictCoeff m1 m2
  if 1 ≤ K then [(FRAME, 1)]
  else
    SUBSETS.filterMap (fun A =>
      let mass := fusedRaw m1 m2 A
      if 0 < mass then some (A, mass / (1 - K)) else none)

/-- Models `_downweight_bba(bba, w)` from `irv_pe.py`: multiply every stored mass
by `w` and add the remainder `1 - w` to the entry whose key is the full
frame.  Note this iterates over the dict's own keys only. -/
def downweightBBA (bba : BBA) (w : ℚ) : BBA :=
  bba.map (fun p => (p.1, p.2 * w + (if p.1 = FRAME then 1 - w else 0)))

/-- Generic association-list lookup returning `Option` (Python `d.get(k)`). -/
def lookup? {κ ν : Type} [DecidableEq κ] : List (κ × ν) → κ → Option ν
  | [], _ => none
  | p :: rest, k => if p.1 = k then some p.2 else lookup? rest k

/-- Models `np.clip(x, 0.0, 1.0)`. -/
def clip01 (x : ℚ) : ℚ := min (max x 0) 1

/-- Mean of a list (`np.mean` / `arr.mean()`). -/
def listMean (l : List ℚ) : ℚ := l.sum / l.length

/-- Population variance of a list; `np.std` / `arr.std()` is its square
root, so every use below appears as `sq (listVar l)` with `sq` standing for
the real square root. -/
def listVar (l : List ℚ) : ℚ :=
  ((l.map (fun x => (x - listMean l) ^ 2)).sum) / l.length

/-- Appending to a `deque(maxlen := m)`: drop from the left on overflow. -/
def pushWindow (maxlen : ℕ) (w : List ℚ) (x : ℚ) : List ℚ :=
  let w1 := w ++ [x]
  if maxlen < w1.length then w1.drop (w1.length - maxlen) else w1

/-! ## Credential records (`vcgen.py`) -/

/-- Models `_VC_TYPES` -/
inductive VCType where
  | KYC
  | DID_DOC
  | BEHAVIORAL
  | DELEGATED
  | GOVERNANCE
deriving DecidableEq, Fintype, Repr

/-- Models `_ISSUER_TIERS` -/
inductive IssuerTier where
  | ROOT_CA
  | INTERMEDIATE_CA
  | LEAF_ISSUER
deriving DecidableEq, Fintype, Repr

/-- One value of a credential attribute payload. -/
inductive AttrVal where
  | s (v : String)
  | i (n : ℤ)
  | q (v : ℚ)
deriving DecidableEq, Repr

/-- An attribute payload (`attributes` dict of `VCRecord`). -/
abbrev AttrMap := List (String × AttrVal)

/-- Models `VCRecord` from `vcgen.py`.  `vcId` models the formatted string
`f"vc-{agent_id:04d}-{i}-{vt[:3]}"` by the data that determines it. -/
structure VCRecord where
  vcId : ℤ × ℕ × VCType
  vcType : VCType
  issuerTier : IssuerTier
  issuerTrust : ℚ
  subjectId : ℤ
  revoked : Bool
  attributes : AttrMap
  bba : BBA
  issuanceTs : ℤ
  chainDepth : ℕ
deriving DecidableEq

/-! ## Evidence fusion engine (`irv_pe.py`) -/

/-- Models `_VC_TYPE_WEIGHT` (the `.get` default `0.7` is unreachable because the
type enumeration is closed). -/
def vcTypeWeight : VCType → ℚ
  | .KYC => 1
  | .DID_DOC => 17/20
  | .BEHAVIORAL => 9/10
  | .DELEGATED => 7/10
  | .GOVERNANCE => 3/4

/-- Models `_TIER_DISCOUNT` (the `.get` default `0.7` is likewise unreachable). -/
def tierDiscount : IssuerTier → ℚ
  | .ROOT_CA => 1
  | .INTERMEDIATE_CA => 9/10
  | .LEAF_ISSUER => 3/4

/-- Models `_CHAIN_DEPTH_PENALTY` -/
def CHAIN_DEPTH_PENALTY : ℚ := 1/20

/-- Models `_effective_weight(vc)` -/
def effectiveWeight (vc : VCRecord) : ℚ :=
  vc.issuerTrust * vcTypeWeight vc.vcType * tierDiscount vc.issuerTier *
    max 0 (1 - vc.chainDepth * CHAIN_DEPTH_PENALTY)

/-- Models `_belief_entropy(bba)`; `lg` stands for `math.log2`. -/
def beliefEntropy (lg : ℚ → ℚ) (bba : BBA) : ℚ :=
  (bba.map (fun p =>
    if p.2 ≤ 0 then 0
    else
      let denom : ℚ := 2 ^ p.1.card - 1
      if denom ≤ 0 then 0 else -(p.2 * lg (p.2 / denom)))).sum

/-- Models `_pignistic_transform(bba)` evaluated at one label. -/
def pignistic (bba : BBA) (l : Label) : ℚ :=
  (bba.map (fun p =>
    if p.1.card = 0 then 0
    else if l ∈ p.1 then p.2 / (p.1.card : ℚ) else 0)).sum

/-- Models `_belief(bba, hyp)` -/
def belief (bba : BBA) (hyp : Finset Label) : ℚ :=
  (bba.map (fun p => if p.1 ≠ ∅ ∧ p.1 ⊆ hyp then p.2 else 0)).sum

/-- Models `_plausibility(bba, hyp)` -/
def plausibility (bba : BBA) (hyp : Finset Label) : ℚ :=
  (bba.map (fun p => if p.1 ∩ hyp ≠ ∅ then p.2 else 0)).sum

/-- The reputation-evidence vector `np.array([bel_tr, bel_un, bel_uk,
pl_tr, betp_tr])`. -/
structure IRVec where
  belTr : ℚ
  belUn : ℚ
  belUk : ℚ
  plTr : ℚ
  betpTr : ℚ
deriving DecidableEq, Repr

/-- Models `np.zeros(5)` -/
def zeroIRV : IRVec := ⟨0, 0, 0, 0, 0⟩

/-- Lines 140–142 of `IRV_PE.process`: prefer non-revoked credentials,
falling back to all supplied credentials when every one is revoked. -/
def selectActive (credentials : List VCRecord) : List VCRecord :=
  let active := credentials.filter (fun vc => !vc.revoked)
  if active.isEmpty then credentials else active

/-- The per-credential body of `IRV_PE.process` (lines 145–156): entropy,
effective weight, revocation penalty, entropy penalty, clamp to
`[0.01, 1.0]`, then discounting when the weight is below 1. -/
def credentialBBA (lg : ℚ → ℚ) (eta revocationPenalty : ℚ) (vc : VCRecord) : BBA :=
  let h := beliefEntropy lg vc.bba
  let w0 := effectiveWeight vc
  let w1 := if vc.revoked then w0 * (1 - revocationPenalty) else w0
  let w2 := if eta < h then w1 * (eta / h) else w1
  let w := max (1/100) (min w2 1)
  if w < 1 then downweightBBA vc.bba w else vc.bba

/-- Models `IRV_PE.process(agent_id, credentials)`; the defaults are
`eta = 2.5`, `revocation_penalty = 0.10`. -/
def process (lg : ℚ → ℚ) (eta revocationPenalty : ℚ)
    (credentials : List VCRecord) : IRVec :=
  let bbas := (selectActive credentials).map (credentialBBA lg eta revocationPenalty)
  match bbas with
  | [] => zeroIRV
  | b :: rest =>
    let fused := rest.foldl chronosrepCombine b
    ⟨clip01 (belief fused S_TR), clip01 (belief fused S_UN),
     clip01 (belief fused S_UK), clip01 (plausibility fused S_TR),
     clip01 (pignistic fused Label.trusted)⟩

/-! ## Credential synthesizer (`vcgen.py`)

`VCGen.generate` constructs `rng = random.Random(agent_id + seed_offset *
100003)` afresh on every call, so every pseudo-random draw is a
mathematical function of that seed and of the position of the draw in the
(fixed, argument-determined) call sequence.  The Mersenne Twister behind
`random.Random` is abstracted as a `DrawOracle`: one function per kind of
draw, taking the seed and the credential index.  Wall-clock time
(`time.time()`) is the remaining input and is passed explicitly as `now`.
All theorems below quantify over the oracle. -/

/-- Models `_REVOCATION_PROB_HONEST` -/
def REVOCATION_PROB_HONEST : ℚ := 2/100

/-- Models `_REVOCATION_PROB_ATTACKER` -/
def REVOCATION_PROB_ATTACKER : ℚ := 35/100

/-- Python `round(x, 4)` (modelled with round-half-up; the half-to-even
corner cases play no role in the claims below). -/
def round4 (x : ℚ) : ℚ := (round (x * 10000) : ℚ) / 10000

/-- Base chain depth per issuer tier (`_chain_depth`). -/
def tierBase : IssuerTier → ℕ
  | .ROOT_CA => 0
  | .INTERMEDIATE_CA => 1
  | .LEAF_ISSUER => 2

/-- Models `_ATTR_KEY_MAP` (via `_ATTR_KEYS_KYC` … `_ATTR_KEYS_GOV`). -/
def ATTR_KEYS : VCType → List String
  | .KYC => ["identity_hash", "nationality_code", "risk_band", "kyc_level"]
  | .DID_DOC => ["did_method", "pub_key_alg", "rotation_count", "linked_domain"]
  | .BEHAVIORAL => ["tx_count_30d", "avg_tx_value", "flagged_ratio", "peer_score"]
  | .DELEGATED => ["delegator_id", "delegation_depth", "scope_bitmask", "expiry_epoch"]
  | .GOVERNANCE => ["dao_id", "vote_weight", "proposal_count", "slash_count"]

/-- Python's substring test `pat in k` (for the non-empty literal patterns
of `_build_attributes`): `splitOn` yields more than one piece exactly when
the pattern occurs. -/
def strContains (k pat : String) : Bool := (k.splitOn pat).length != 1

/-- The branch of the `_build_attributes` if/elif chain that handles one
attribute key. -/
inductive AttrBranch where
  | hash
  | randCount
  | randRat
  | epoch
  | bitmask
  | choice
  | uniformDefault
deriving DecidableEq, Repr

/-- The if/elif dispatch of `_build_attributes` (`vcgen.py` lines 108–131),
condition by condition in source order. -/
def attrBranch (k : String) : AttrBranch :=
  if strContains k "hash" || strContains k "key" || strContains k "did" then .hash
  else if strContains k "count" || strContains k "depth" || strContains k "rotation" then
    .randCount
  else if strContains k "ratio" || strContains k "score" || strContains k "weight" then
    .randRat
  else if strContains k "epoch" then .epoch
  else if strContains k "bitmask" then .bitmask
  else if strContains k "band" || strContains k "level" || strContains k "method"
      || strContains k "alg" then .choice
  else .uniformDefault

/-- The pseudo-random inputs `_build_attributes` consumes for one
credential, one per attribute key (keys within a credential are distinct):
`hashDraw` is the sha3-256 hexdigest of `rng.getrandbits(128)`,
`intDraw` the `rng.randint(...)`/`rng.getrandbits(16)` value for the
integer branches, `ratDraw` the rounded `rng.uniform(...)` value, and
`choiceDraw` the element `rng.choice(pool)` picks (the attacker flag only
widens the draw ranges, so it lives inside these functions). -/
structure AttrDraws where
  hashDraw : String → String
  intDraw : String → ℤ
  ratDraw : String → ℚ
  choiceDraw : String → AttrVal

/-- One iteration of the `for k in keys` loop of `_build_attributes`: the
entry for key `k`, whose value is drawn according to the matching branch;
only the `epoch` branch reads the wall clock
(`int(time.time()) + rng.randint(86400, 31536000)`). -/
def attrEntry (d : AttrDraws) (now : ℤ) (k : String) : String × AttrVal :=
  match attrBranch k with
  | .hash => (k, AttrVal.s (d.hashDraw k))
  | .randCount => (k, AttrVal.i (d.intDraw k))
  | .randRat => (k, AttrVal.q (d.ratDraw k))
  | .epoch => (k, AttrVal.i (now + d.intDraw k))
  | .bitmask => (k, AttrVal.i (d.intDraw k))
  | .choice => (k, d.choiceDraw k)
  | .uniformDefault => (k, AttrVal.q (d.ratDraw k))

/-- Models `_build_attributes(vc_type, rng, is_attacker)`: one entry per
key of the type's key tuple. -/
def buildAttributes (d : AttrDraws) (vt : VCType) (now : ℤ) : AttrMap :=
  (ATTR_KEYS vt).map (attrEntry d now)

/-- The entries of an attribute payload whose values do not incorporate
the wall clock: everything except the `epoch`-branch keys. -/
def timeFreeAttrs (m : AttrMap) : AttrMap :=
  m.filter (fun p => decide (attrBranch p.1 ≠ AttrBranch.epoch))

/-- Abstract interface of the per-call `random.Random(seed)` stream used by
`VCGen.generate`: each field gives the value of one named draw for the
credential at index `i` under seed `s`. -/
structure DrawOracle where
  /-- Models `rng.choices(_VC_TYPES, k=n)[i]` -/
  vcType : ℤ → ℕ → VCType
  /-- Models `_issuer_tier_for_vc_type(vt, rng)` -/
  tier : ℤ → ℕ → IssuerTier
  /-- Models `_issuer_trust(tier, rng)` = `round(rng.uniform(lo, hi), 4)` -/
  trustBase : ℤ → ℕ → ℚ
  /-- Models `rng.uniform(0.5, 0.85)` (adversarial trust discount) -/
  attackerMult : ℤ → ℕ → ℚ
  /-- Models `rng.random()` (revocation Bernoulli draw) -/
  revDraw : ℤ → ℕ → ℚ
  /-- The draws `_build_attributes(vt, rng, is_attacker)` consumes -/
  attrDraws : ℤ → ℕ → Bool → AttrDraws
  /-- Models `_build_honest_bba(rng)` / `_build_attacker_bba(rng)` -/
  bbaDraw : ℤ → ℕ → Bool → BBA
  /-- Models `rng.randint(0, 31536000)` (issuance timestamp offset) -/
  tsOffset : ℤ → ℕ → ℤ
  /-- Models `rng.randint(0, 1)` (chain-depth jitter) -/
  depthJitter : ℤ → ℕ → ℕ

/-- Models `VCGen.generate(agent_id, n_credentials, is_attacker)` with
`seed_offset` from `VCGen.__init__` and `now = int(time.time())`. -/
def generate (o : DrawOracle) (now : ℤ) (seedOffset : ℤ)
    (agentId : ℤ) (n : ℕ) (isAttacker : Bool) : List VCRecord :=
  let seed := agentId + seedOffset * 100003
  (List.range n).map (fun i =>
    let vt := o.vcType seed i
    let tier := o.tier seed i
    let trust :=
      if isAttacker then o.trustBase seed i * o.attackerMult seed i
      else o.trustBase seed i
    let revProb := if isAttacker then REVOCATION_PROB_ATTACKER else REVOCATION_PROB_HONEST
    { vcId := (agentId, i, vt)
      vcType := vt
      issuerTier := tier
      issuerTrust := round4 trust
      subjectId := agentId
      revoked := decide (o.revDraw seed i < revProb)
      attributes := buildAttributes (o.attrDraws seed i isAttacker) vt now
      bba := o.bbaDraw seed i isAttacker
      issuanceTs := now - o.tsOffset seed i
      chainDepth := tierBase tier + o.depthJitter seed i })

/-- The fields of a generated record that do not involve wall-clock time
(everything except `issuance_ts` and the attribute payload). -/
def timeFreeFields (vc : VCRecord) :
    (ℤ × ℕ × VCType) × VCType × IssuerTier × ℚ × ℤ × Bool × BBA × ℕ :=
  (vc.vcId, vc.vcType, vc.issuerTier, vc.issuerTrust, vc.subjectId,
   vc.revoked, vc.bba, vc.chainDepth)

/-- A concrete draw oracle (all draws constant), used only to evaluate
`generate` at specific inputs. -/
def constOracle : DrawOracle where
  vcType := fun _ _ => .KYC
  tier := fun _ _ => .ROOT_CA
  trustBase := fun _ _ => 9/10
  attackerMult := fun _ _ => 1/2
  revDraw := fun _ _ => 1/2
  attrDraws := fun _ _ _ =>
    ⟨fun _ => "", fun _ => 0, fun _ => 0, fun _ => AttrVal.i 0⟩
  bbaDraw := fun _ _ _ => [(FRAME, 1)]
  tsOffset := fun _ _ => 0
  depthJitter := fun _ _ => 0

/-! ## Behavioral surveillance monitor (`bsm.py`) -/

/-- Models `_CUSUM_H` (note: `_cusum_update` reads this module constant; the
`cusum_h` stored by `BSM.__init__` is never consulted). -/
def CUSUM_H : ℚ := 4

/-- Models `_CUSUM_K` -/
def CUSUM_K : ℚ := 1/2

/-- Models `_ZSCORE_WIN` -/
def ZSCORE_WIN : ℕ := 30

/-- Models `_ENTROPY_EPS` -/
def ENTROPY_EPS : ℚ := 1/10^9

/-- Models `_StreamState` (the `last_entropy` diagnostic field is tracked in the
returned diagnostics instead). -/
structure StreamState where
  window : List ℚ
  cusumPos : ℚ
  cusumNeg : ℚ
  alarmCount : ℕ
  t : ℕ
deriving DecidableEq, Repr

/-- A fresh `_StreamState()`. -/
def freshStream : StreamState := ⟨[], 0, 0, 0, 0⟩

/-- Models `_zscore_normalize(value, window)`; `sq` stands for the square root
inside `np.std`. -/
def zscoreNormalize (sq : ℚ → ℚ) (value : ℚ) (window : List ℚ) : ℚ :=
  if window.length < 2 then 0
  else
    let sigma := sq (listVar window)
    if sigma < ENTROPY_EPS then 0 else (value - listMean window) / sigma

/-- Models `_cusum_update(z, s_pos, s_neg, k)`: accumulate, test against the
module constant `_CUSUM_H`, and zero both accumulators on alarm. -/
def cusumUpdate (z sPos sNeg k : ℚ) : ℚ × ℚ × Bool :=
  let sPos1 := max 0 (sPos + z - k)
  let sNeg1 := max 0 (sNeg - z - k)
  if CUSUM_H < sPos1 ∨ CUSUM_H < sNeg1 then (0, 0, true) else (sPos1, sNeg1, false)

/-- One iteration of the `for outcome in behavior_stream` loop of
`BSM.monitor`, also threading the `alarms` list. -/
def monitorStep (sq : ℚ → ℚ) (k : ℚ) :
    StreamState × List ℕ → ℤ → StreamState × List ℕ :=
  fun sa outcome =>
    let s := sa.1
    let w := pushWindow ZSCORE_WIN s.window (outcome : ℚ)
    let z := zscoreNormalize sq (outcome : ℚ) w
    let r := cusumUpdate z s.cusumPos s.cusumNeg k
    if r.2.2 then
      (⟨w, r.1, r.2.1, s.alarmCount + 1, s.t + 1⟩, sa.2 ++ [s.t])
    else
      (⟨w, r.1, r.2.1, s.alarmCount, s.t + 1⟩, sa.2)

/-- Models `_outcome_distribution(window)` -/
def outcomeDist (window : List ℚ) : ℚ × ℚ :=
  if window.length = 0 then (1/2, 1/2)
  else (1 - listMean window, listMean window)

/-- Models `_shannon_entropy(probs)` for the two-point distribution; `lg` stands
for `np.log2`. -/
def shannonEntropy (lg : ℚ → ℚ) (probs : ℚ × ℚ) : ℚ :=
  (if ENTROPY_EPS < probs.1 then -(probs.1 * lg probs.1) else 0) +
    (if ENTROPY_EPS < probs.2 then -(probs.2 * lg probs.2) else 0)

/-- The diagnostics dict returned by `BSM.monitor`. -/
structure Diag where
  agentId : ℤ
  meanOutcome : ℚ
  entropy : ℚ
  anomalyScore : ℚ
  alarmSteps : List ℕ
  cusumPos : ℚ
  cusumNeg : ℚ
  t : ℕ
deriving DecidableEq, Repr

/-- Models `BSM.monitor(agent_id, behavior_stream)` acting on one actor's stream
state, returning the updated state and the diagnostics dict. -/
def monitor (sq lg : ℚ → ℚ) (k : ℚ) (agentId : ℤ)
    (s0 : StreamState) (stream : List ℤ) : StreamState × Diag :=
  let sa := stream.foldl (monitorStep sq k) (s0, [])
  let s := sa.1
  let h := shannonEntropy lg (outcomeDist s.window)
  let meanOutcome := if s.window.length = 0 then 1/2 else listMean s.window
  let score := (s.alarmCount : ℚ) / ((max s.t 1 : ℕ) : ℚ)
  (s, ⟨agentId, meanOutcome, h, score, sa.2, s.cusumPos, s.cusumNeg, s.t⟩)

/-- Models `BSM.anomaly_score(agent_id)`: `None` models an actor never observed. -/
def anomalyScore : Option StreamState → ℚ
  | none => 0
  | some s => if s.t = 0 then 0 else (s.alarmCount : ℚ) / (s.t : ℚ)

/-! ## Volatility-adjusted dynamics (`vadm.py`) -/

/-- Models `_GAMMA_THRESHOLD` -/
def GAMMA_THRESHOLD : ℚ := 3

/-- Models `_noise_floor(sigma, theta)`; `sq` stands for `np.sqrt`. -/
def noiseFloor (sq : ℚ → ℚ) (sigma theta : ℚ) : ℚ :=
  sigma / max (sq (2 * theta)) (1/10^8)

/-- Models `_gamma_ratio(epsilon, sigma, theta)` -/
def gammaRat (sq : ℚ → ℚ) (epsilon sigma theta : ℚ) : ℚ :=
  let nf := noiseFloor sq sigma theta
  if 0 < nf then |epsilon| / nf else 0

/-- The `jump` local of `_euler_maruyama` (lines 41–44 of `vadm.py`):
`jumpDraw` stands for the draw `rng.normal(0.0, jump_scale)`. -/
def jumpTerm (x mu gamma jumpDraw : ℚ) : ℚ :=
  if GAMMA_THRESHOLD < gamma then (if mu < x then -1 else 1) * |jumpDraw| else 0

/-- Models `_euler_maruyama(x, mu, theta, sigma, dt, rng, jump_scale, gamma)`;
`normalDraw` stands for `rng.standard_normal()`. -/
def eulerMaruyama (sq : ℚ → ℚ) (x mu theta sigma dt normalDraw jumpDraw gamma : ℚ) : ℚ :=
  let drift := theta * (mu - x) * dt
  let diffusion := sigma * normalDraw * sq dt
  clip01 (x + drift + diffusion + jumpTerm x mu gamma jumpDraw)

/-- Models `_update_theta(theta, epsilon, alpha, dt)` -/
def updateTheta (theta epsilon alpha dt : ℚ) : ℚ :=
  min (max (theta + alpha * (epsilon - theta * dt)) (1/10^4)) 10

/-- Models `_AgentState` of `vadm.py`. -/
structure VState where
  x : ℚ
  theta : ℚ
  history : List ℚ
  t : ℕ
deriving DecidableEq, Repr

/-- Models `VADM._init(agent_id, mu)` -/
def vadmInit (theta0 mu : ℚ) : VState := ⟨clip01 mu, theta0, [], 0⟩

/-- Models `VADM.step(agent_id, irv, r_static)` acting on one actor's state
(`none` models an actor not yet in `self._states`); returns the updated
state together with the returned pair `(s.x, sigma_w)`. -/
def vadmStep (sq : ℚ → ℚ) (dt theta0 sigma alpha : ℚ) (window : ℕ)
    (normalDraw jumpDraw : ℚ) (s0 : Option VState) (irv0 rStatic : ℚ) :
    VState × ℚ × ℚ :=
  let mu := clip01 irv0
  let s := s0.getD (vadmInit theta0 mu)
  let epsilon := |rStatic - s.x|
  let gamma := gammaRat sq epsilon sigma s.theta
  let theta1 := updateTheta s.theta epsilon alpha dt
  let x1 := eulerMaruyama sq s.x mu theta1 sigma dt normalDraw jumpDraw gamma
  let hist := pushWindow window s.history x1
  let sigmaW := if 1 < hist.length then sq (listVar hist) else 0
  (⟨x1, theta1, hist, s.t + 1⟩, x1, sigmaW)

/-! ## Interaction & community engine (`ite.py`) -/

/-- Models `_SUSPECT_DIN` -/
def SUSPECT_DIN : ℚ := 3/5

/-- Models `_SUSPECT_EXTER` -/
def SUSPECT_EXTER : ℚ := 1/5

/-- Models `_BETA` (module constant) -/
def BETA : ℚ := 1/2

/-- Models `_GAMMA` (module constant) -/
def GAMMA : ℚ := 1/2

/-- Models `_CommStats` (`ext_ratio` is modelled as `extRat`). -/
structure CommStats where
  members : Finset ℤ
  din : ℚ
  extRat : ℚ
deriving DecidableEq

/-- Models `_fast_jaccard(nbrs_u, nbrs_v)` -/
def fastJaccard (u v : Finset ℤ) : ℚ :=
  if 0 < (u ∪ v).card then ((u ∩ v).card : ℚ) / ((u ∪ v).card : ℚ) else 0

/-- Models `_is_suspect(stats)` -/
def isSuspect (s : CommStats) : Bool :=
  decide (SUSPECT_DIN ≤ s.din ∧ s.extRat ≤ SUSPECT_EXTER)

/-- Models `_structural_penalty(sim, din)`.  Note the source computes
`raw = _BETA * sim + _GAMMA * din` from the module constants, not from the
`beta`/`gamma` stored on the `ITE` instance. -/
def structuralPenalty (sim din : ℚ) : ℚ :=
  max 0 (1 - (BETA * sim + GAMMA * din))

/-- The `ITE` instance state reached through `__init__` and the graph
bookkeeping: `beta`/`gamma` are the constructor arguments (stored but never
read by `penalized_evidence`), `partition` and `commStats` the dicts built
by `_recompute`, `nbrs` the `defaultdict(set)` of undirected neighbors. -/
structure ITEState where
  beta : ℚ
  gamma : ℚ
  partition : List (ℤ × ℤ)
  commStats : List (ℤ × CommStats)
  nbrs : ℤ → Finset ℤ

/-- Models `ITE.penalized_evidence(endorser_id, target_id, raw_outcome)`. -/
def penalizedEvidence (st : ITEState) (endorser target : ℤ) (raw : ℤ) : ℚ :=
  let e : ℚ := (raw : ℚ)
  if st.partition.isEmpty then e
  else
    match lookup? st.partition endorser, lookup? st.partition target with
    | some ce, some ct =>
      if ce ≠ ct then e
      else
        match lookup? st.commStats ce with
        | none => e
        | some stats =>
          if ¬ isSuspect stats then e
          else
            let ne := st.nbrs endorser ∪ {endorser}
            let nt := st.nbrs target ∪ {target}
            structuralPenalty (fastJaccard ne nt) stats.din * e
    | _, _ => e

/-! ## Model loop (`model.py`)

`ChronosAgent.step` calls each engine through the shared model (`vcgen`,
`irv_pe`, `ite`, `bsm`, `vadm`).  Those engines own their own mutable
state and randomness; for the isolation claims their per-call behavior is
abstracted as a `StepEnv` of response functions, and the step additionally
returns the list of engine calls it performed, in source order. -/

/-- One engine invocation made by `ChronosAgent.step`. -/
inductive EngineCall where
  | vcgenGenerate
  | irvpeProcess
  | iteGenerateInteractions
  | itePenalizedEvidence
  | bsmMonitor
  | vadmStepCall
deriving DecidableEq, Repr

/-- The `ChronosAgent` attributes. -/
structure AgentState where
  uid : ℤ
  irv : IRVec
  reputation : ℚ
  volatility : ℚ
  evidence : List ℚ
  isolated : Bool
  isAttacker : Bool
deriving DecidableEq, Repr

/-- A fresh `ChronosAgent(unique_id, model)`. -/
def freshAgent (uid : ℤ) : AgentState :=
  ⟨uid, zeroIRV, 1/2, 0, [], false, false⟩

/-- The engines' responses to one agent's step, abstracting their internal
state and randomness. -/
structure StepEnv where
  /-- Models `vcgen.generate(uid, is_attacker=...)` -/
  credentials : List VCRecord
  /-- Models `irv_pe.process(uid, credentials)` -/
  irvOf : List VCRecord → IRVec
  /-- Models `ite.generate_interactions(uid, all_ids)`: `(target, outcome)` pairs -/
  interactions : List (ℤ × ℤ)
  /-- Models `ite.penalized_evidence(uid, target, outcome)` -/
  penalized : ℤ → ℤ → ℚ
  /-- Models `bsm.monitor(uid, outcomes)["anomaly_score"]` -/
  anomaly : List ℤ → ℚ
  /-- Models `vadm.step(uid, irv, r_static)` -/
  vadm : IRVec → ℚ → ℚ × ℚ

/-- Models `ChronosAgent.step()`: returns early with no engine calls when
isolated, otherwise runs the synthesize → fuse → interact → surveil →
update pipeline and isolates the agent when the new reputation falls below
`tau`. -/
def agentStep (tau : ℚ) (env : StepEnv) (a : AgentState) :
    AgentState × List EngineCall :=
  if a.isolated then (a, [])
  else
    let irv := env.irvOf env.credentials
    let outcomes := env.interactions.map Prod.snd
    let evidence := env.interactions.map (fun p => env.penalized p.1 p.2)
    let anomaly := env.anomaly outcomes
    let rStatic0 := if evidence.isEmpty then irv.belTr else listMean evidence
    let rStatic := rStatic0 * (1 - (1/2) * anomaly)
    let rv := env.vadm irv rStatic
    ({ a with
        irv := irv
        evidence := evidence
        reputation := rv.1
        volatility := rv.2
        isolated := decide (rv.1 < tau) },
     [.vcgenGenerate, .irvpeProcess, .iteGenerateInteractions,
      .itePenalizedEvidence, .bsmMonitor, .vadmStepCall])

/-- Iterating `ChronosAgent.step` over the steps of a run (one `StepEnv`
per model tick). -/
def stepMany (tau : ℚ) (envs : List StepEnv) (a : AgentState) : AgentState :=
  envs.foldl (fun st e => (agentStep tau e st).1) a

/-- Line 25 of `model.py`: the interaction-target pool
`[a.unique_id for a in self.model.schedule.agents if not a.isolated]`. -/
def activePool (agents : List AgentState) : List ℤ :=
  (agents.filter (fun a => !a.isolated)).map (fun a => a.uid)

/-! ## Theorems -/

/-- C5: combining the BBA `{{trusted}: 0.6, {unknown}: 0.1, Θ: 0.3}` with
itself yields conflict mass `K = 0.12 = 3/25` and fused masses
`{trusted} = 9/11 = 0.81818…`, `{unknown} = 7/88 = 0.079545…`,
`Θ = 9/88 = 0.102272…`, which sum to exactly 1. -/
theorem fusion_worked_example :
    conflictCoeff
        [(S_TR, 3/5), (S_UK, 1/10), (FRAME, 3/10)]
        [(S_TR, 3/5), (S_UK, 1/10), (FRAME, 3/10)] = 3/25 ∧
    dictGet (chronosrepCombine
        [(S_TR, 3/5), (S_UK, 1/10), (FRAME, 3/10)]
        [(S_TR, 3/5), (S_UK, 1/10), (FRAME, 3/10)]) S_TR = 9/11 ∧
    dictGet (chronosrepCombine
        [(S_TR, 3/5), (S_UK, 1/10), (FRAME, 3/10)]
        [(S_TR, 3/5), (S_UK, 1/10), (FRAME, 3/10)]) S_UK = 7/88 ∧
    dictGet (chronosrepCombine
        [(S_TR, 3/5), (S_UK, 1/10), (FRAME, 3/10)]
        [(S_TR, 3/5), (S_UK, 1/10), (FRAME, 3/10)]) FRAME = 9/88 ∧
    dictSum (chronosrepCombine
        [(S_TR, 3/5), (S_UK, 1/10), (FRAME, 3/10)]
        [(S_TR, 3/5), (S_UK, 1/10), (FRAME, 3/10)]) = 1 := by
  refine ⟨?_, ?_, ?_, ?_, ?_⟩ <;>
    norm_num +decide [chronosrepCombine, conflictCoeff, fusedRaw, dictSum,
      SUBSETS, dictGet, List.filterMap_cons, List.filterMap_nil,
      S_TR, S_UN, S_UK, FRAME]

/-- C1 (counterexample): with `gamma = 4 > 3`, `x = 3/4` strictly above
`mu = 1/4` and jump draw `1/2`, the jump computed by `_euler_maruyama` is
`-1/2 < 0`, although the claim demands the sign of `x - mu > 0`. -/
theorem vadm_jump_sign_counterexample :
    GAMMA_THRESHOLD < (4 : ℚ) ∧ (0 : ℚ) < 3/4 - 1/4 ∧
      jumpTerm (3/4) (1/4) 4 (1/2) = -(1/2) := by
  refine ⟨by norm_num [GAMMA_THRESHOLD], by norm_num, ?_⟩
  rw [jumpTerm, if_pos (by norm_num [GAMMA_THRESHOLD]), if_pos (by norm_num)]
  rw [abs_of_pos (by norm_num)]
  ring

/-- C1 (amended): whenever `gamma` exceeds the jump threshold, the value
returned by `_euler_maruyama` adds a jump of magnitude `|jumpDraw|`
(`jumpDraw` drawn from the zero-mean normal with the configured scale)
signed to push `x` TOWARD the target: negative when `x > mu`, positive (or
zero) when `x ≤ mu`; and every `VADM.step` call integrates through
`_euler_maruyama` with exactly that jump. -/
theorem vadm_jump_toward_target
    (sq : ℚ → ℚ) (x mu theta sigma dt normalDraw jumpDraw gamma : ℚ)
    (h : GAMMA_THRESHOLD < gamma) :
    eulerMaruyama sq x mu theta sigma dt normalDraw jumpDraw gamma
      = clip01 (x + theta * (mu - x) * dt + sigma * normalDraw * sq dt +
          (if mu < x then -1 else 1) * |jumpDraw|) ∧
    (mu < x → jumpTerm x mu gamma jumpDraw = -|jumpDraw| ∧
      jumpTerm x mu gamma jumpDraw ≤ 0) ∧
    (x ≤ mu → jumpTerm x mu gamma jumpDraw = |jumpDraw| ∧
      0 ≤ jumpTerm x mu gamma jumpDraw) ∧
    (∀ (s : VState) (theta0 alpha irv0 rStatic : ℚ) (window : ℕ),
      gammaRat sq |rStatic - s.x| sigma s.theta = gamma →
      (vadmStep sq dt theta0 sigma alpha window normalDraw jumpDraw
          (some s) irv0 rStatic).1.x
        = eulerMaruyama sq s.x (clip01 irv0)
            (updateTheta s.theta |rStatic - s.x| alpha dt)
            sigma dt normalDraw jumpDraw gamma) := by
  refine ⟨?_, ?_, ?_, ?_⟩
  · simp only [eulerMaruyama, jumpTerm, if_pos h]
  · intro hx
    simp only [jumpTerm, if_pos h, if_pos hx]
    constructor
    · ring
    · have := abs_nonneg jumpDraw
      nlinarith
  · intro hx
    simp only [jumpTerm, if_pos h, if_neg (not_lt.mpr hx)]
    constructor
    · ring
    · have := abs_nonneg jumpDraw
      nlinarith
  · intro s theta0 alpha irv0 rStatic window hg
    simp only [vadmStep, Option.getD, hg]

/-- Witness for `vadm_jump_toward_target` at `x = 1 > mu = 0`,
`gamma = 4`, draw `1/2`. -/
theorem vadm_jump_toward_target_witness :
    jumpTerm 1 0 4 (1/2) = -|(1/2 : ℚ)| ∧ jumpTerm 1 0 4 (1/2) ≤ 0 :=
  (vadm_jump_toward_target (fun q => q) 1 0 1 1 1 0 (1/2) 4
    (by norm_num [GAMMA_THRESHOLD])).2.1 (by norm_num)

/-- C3: `_downweight_bba` evaluated at the failing input: the valid BBA
`{{trusted}: 1.0}` (masses over non-empty hypotheses sum to 1, no entry
for the full frame) discounted by `w = 1/2` yields `{{trusted}: 0.5}`,
whose masses sum to `1/2`, off from 1 by far more than the `1e-9`
tolerance: the remainder `1 - w` is dropped because the source only adds
it to an already-present full-frame key. -/
theorem downweight_mass_lost :
    (SUBSETS.map (dictGet [(S_TR, 1)])).sum = 1 ∧
    downweightBBA [(S_TR, 1)] (1/2) = [(S_TR, 1/2)] ∧
    dictSum (downweightBBA [(S_TR, 1)] (1/2)) = 1/2 ∧
    ¬ |dictSum (downweightBBA [(S_TR, 1)] (1/2)) - 1| ≤ 1/10^9 := by
  have h : dictSum (downweightBBA [(S_TR, 1)] (1/2)) = 1/2 := by
    norm_num +decide [downweightBBA, dictSum, S_TR, FRAME]
  refine ⟨?_, ?_, h, ?_⟩
  · norm_num +decide [dictGet, SUBSETS, S_TR]
  · norm_num +decide [downweightBBA, S_TR, FRAME]
  · rw [h, show |(1:ℚ)/2 - 1| = 1/2 from by rw [abs_of_neg (by norm_num)]; norm_num]
    norm_num

/-- C4: `penalized_evidence` evaluated on an `ITE` constructed with
`beta = 0`, `gamma = 0`, for two members of a suspect community of density
1 with identical (self-inclusive) neighbor sets and raw outcome 1: the
code returns `0` (it uses the module constants `0.5`/`0.5`), while the
configured values predict weight `max(0, 1 - (0·1 + 0·1)) = 1` and hence
return `1`. -/
theorem ite_configured_beta_gamma_ignored :
    penalizedEvidence
      { beta := 0, gamma := 0,
        partition := [(1, 0), (2, 0)],
        commStats := [(0, ⟨{1, 2}, 1, 0⟩)],
        nbrs := fun i => if i = 1 then {2} else if i = 2 then {1} else ∅ }
      1 2 1 = 0 ∧
    max 0 (1 - ((0 : ℚ) * 1 + (0 : ℚ) * 1)) = 1 := by
  constructor
  · have hs : isSuspect ⟨{1, 2}, 1, 0⟩ = true := by
      rw [isSuspect]
      simp only [decide_eq_true_eq]
      norm_num [SUSPECT_DIN, SUSPECT_EXTER]
    have hA : (({2} : Finset ℤ) ∪ {1}) = {1, 2} := by
      ext x
      simp [or_comm]
    have hB : (({1} : Finset ℤ) ∪ {2}) = {1, 2} := by
      ext x
      simp
    have hcard : ({1, 2} : Finset ℤ).card = 2 := by
      rw [Finset.card_insert_of_not_mem (by simp), Finset.card_singleton]
    have hj : fastJaccard (({2} : Finset ℤ) ∪ {1}) (({1} : Finset ℤ) ∪ {2}) = 1 := by
      rw [fastJaccard, hA, hB, Finset.union_self, Finset.inter_self,
        if_pos (by rw [hcard]; norm_num), hcard]
      norm_num
    have h1 : lookup? [((1:ℤ), (0:ℤ)), (2, 0)] 1 = some 0 := by simp [lookup?]
    have h2 : lookup? [((1:ℤ), (0:ℤ)), (2, 0)] 2 = some 0 := by simp [lookup?]
    have h3 : lookup? [((0:ℤ), (⟨{1, 2}, 1, 0⟩ : CommStats))] 0
        = some ⟨{1, 2}, 1, 0⟩ := by simp [lookup?]
    simp only [penalizedEvidence, h1, h2, h3, hs]
    norm_num [hj, structuralPenalty, BETA, GAMMA]
  · norm_num

/-- C2 (counterexample): the same `VCGen.generate` call made in two fresh
processes one wall-clock second apart (`now = 0` vs `now = 1`) returns
credential records that differ in `issuance_ts`, because
`issuance_ts = int(time.time()) - rng.randint(0, 31536000)` reads the
clock.  So repeated calls with the same inputs in a fresh process are not
identical in every field. -/
theorem vcgen_timestamp_counterexample :
    (generate constOracle 0 0 1 1 false).map VCRecord.issuanceTs = [0] ∧
    (generate constOracle 1 0 1 1 false).map VCRecord.issuanceTs = [1] ∧
    generate constOracle 0 0 1 1 false ≠ generate constOracle 1 0 1 1 false := by
  have e0 : (generate constOracle 0 0 1 1 false).map VCRecord.issuanceTs = [0] := by
    simp [generate, constOracle, List.range_succ]
  have e1 : (generate constOracle 1 0 1 1 false).map VCRecord.issuanceTs = [1] := by
    simp [generate, constOracle, List.range_succ]
  refine ⟨e0, e1, ?_⟩
  intro hEq
  have hts := congrArg (List.map VCRecord.issuanceTs) hEq
  rw [e0, e1] at hts
  simp at hts

/-- Helper: an attribute entry is keyed by its attribute name. -/
theorem attrEntry_fst (d : AttrDraws) (now : ℤ) (k : String) :
    (attrEntry d now k).1 = k := by
  rw [attrEntry]
  cases attrBranch k <;> rfl

/-- Helper: entries of every branch other than `epoch` do not read the
wall clock. -/
theorem attrEntry_time_free (d : AttrDraws) (now now' : ℤ) (k : String)
    (h : attrBranch k ≠ AttrBranch.epoch) :
    attrEntry d now k = attrEntry d now' k := by
  rw [attrEntry, attrEntry]
  cases hbr : attrBranch k
  case epoch => exact absurd hbr h
  all_goals rfl

/-- Helper: the attribute entries produced by every branch of
`_build_attributes` other than the `epoch` one are independent of the
wall clock. -/
theorem timeFreeAttrs_buildAttributes (d : AttrDraws) (vt : VCType) (now now' : ℤ) :
    timeFreeAttrs (buildAttributes d vt now) = timeFreeAttrs (buildAttributes d vt now') := by
  unfold timeFreeAttrs buildAttributes
  rw [List.filter_map, List.filter_map]
  have hq : ∀ m : ℤ,
      ((fun p : String × AttrVal => decide (attrBranch p.1 ≠ AttrBranch.epoch))
          ∘ attrEntry d m)
        = fun k => decide (attrBranch k ≠ AttrBranch.epoch) := by
    intro m
    funext k
    simp only [Function.comp_apply, attrEntry_fst]
  rw [hq now, hq now']
  apply List.map_congr_left
  intro k hk
  exact attrEntry_time_free d now now' k
    (of_decide_eq_true (List.mem_filter.mp hk).2)

/-- C2 (amended): every field of every generated record other than
`issuance_ts` is independent of the wall-clock reading `now`, and so is
every attribute entry except those of the `epoch` branch of
`_build_attributes` (i.e. `expiry_epoch`); all draws come from the
per-call `random.Random(agent_id + seed_offset * 100003)` (the oracle
applied to that seed), so with `now` fixed the call is reproducible and
advances no shared state. -/
theorem vcgen_deterministic_time_free (o : DrawOracle)
    (now now' seedOff agentId : ℤ) (n : ℕ) (att : Bool) :
    (generate o now seedOff agentId n att).map timeFreeFields
      = (generate o now' seedOff agentId n att).map timeFreeFields ∧
    (generate o now seedOff agentId n att).map (fun vc => timeFreeAttrs vc.attributes)
      = (generate o now' seedOff agentId n att).map
          (fun vc => timeFreeAttrs vc.attributes) := by
  constructor
  · simp only [generate, List.map_map]
    congr 1
  · simp only [generate, List.map_map]
    congr 1
    funext i
    exact timeFreeAttrs_buildAttributes
      (o.attrDraws (agentId + seedOff * 100003) i att)
      (o.vcType (agentId + seedOff * 100003) i) now now'

/-- C7: each observed outcome updates the CUSUM accumulators to
`max(0, pos + z - k)` and `max(0, neg - z - k)`; exactly when either
exceeds the control limit `H = 4.0`, the alarm fires, the alarm counter is
incremented, both accumulators reset to exactly 0 on that same
observation, and the observation's step index is appended to the alarm
list that `monitor` returns in its diagnostics. -/
theorem bsm_cusum_alarm_semantics (sq lg : ℚ → ℚ) (k : ℚ)
    (w : List ℚ) (pos neg : ℚ) (ac t0 : ℕ) (al : List ℕ) (x : ℤ)
    (aid : ℤ) (s0 : StreamState) (stream : List ℤ) :
    (monitorStep sq k (⟨w, pos, neg, ac, t0⟩, al) x =
      if CUSUM_H < max 0 (pos + zscoreNormalize sq (x : ℚ) (pushWindow ZSCORE_WIN w (x : ℚ)) - k)
          ∨ CUSUM_H < max 0 (neg - zscoreNormalize sq (x : ℚ) (pushWindow ZSCORE_WIN w (x : ℚ)) - k) then
        (⟨pushWindow ZSCORE_WIN w (x : ℚ), 0, 0, ac + 1, t0 + 1⟩, al ++ [t0])
      else
        (⟨pushWindow ZSCORE_WIN w (x : ℚ),
          max 0 (pos + zscoreNormalize sq (x : ℚ) (pushWindow ZSCORE_WIN w (x : ℚ)) - k),
          max 0 (neg - zscoreNormalize sq (x : ℚ) (pushWindow ZSCORE_WIN w (x : ℚ)) - k),
          ac, t0 + 1⟩, al)) ∧
    (monitor sq lg k aid s0 stream).2.alarmSteps
      = (stream.foldl (monitorStep sq k) (s0, [])).2 := by
  constructor
  · simp only [monitorStep]
    by_cases hc :
        CUSUM_H < max 0 (pos + zscoreNormalize sq (x : ℚ) (pushWindow ZSCORE_WIN w (x : ℚ)) - k)
          ∨ CUSUM_H < max 0 (neg - zscoreNormalize sq (x : ℚ) (pushWindow ZSCORE_WIN w (x : ℚ)) - k)
    · have hcu : cusumUpdate (zscoreNormalize sq (x : ℚ) (pushWindow ZSCORE_WIN w (x : ℚ)))
          pos neg k = (0, 0, true) := by
        rw [cusumUpdate, if_pos hc]
      rw [hcu, if_pos hc]
      simp
    · have hcu : cusumUpdate (zscoreNormalize sq (x : ℚ) (pushWindow ZSCORE_WIN w (x : ℚ)))
          pos neg k =
            (max 0 (pos + zscoreNormalize sq (x : ℚ) (pushWindow ZSCORE_WIN w (x : ℚ)) - k),
             max 0 (neg - zscoreNormalize sq (x : ℚ) (pushWindow ZSCORE_WIN w (x : ℚ)) - k),
             false) := by
        rw [cusumUpdate, if_neg hc]
      rw [hcu, if_neg hc]
      simp
  · rfl

/-- Helper: one monitor-loop iteration advances the step counter by 1. -/
theorem monitorStep_t (sq : ℚ → ℚ) (k : ℚ) (sa : StreamState × List ℕ) (x : ℤ) :
    (monitorStep sq k sa x).1.t = sa.1.t + 1 := by
  rw [monitorStep]
  split <;> rfl

/-- Helper: one monitor-loop iteration counts at most one alarm. -/
theorem monitorStep_alarmCount (sq : ℚ → ℚ) (k : ℚ) (sa : StreamState × List ℕ) (x : ℤ) :
    (monitorStep sq k sa x).1.alarmCount ≤ sa.1.alarmCount + 1 := by
  rw [monitorStep]
  split <;> simp

/-- Helper: the monitor loop preserves `alarmCount ≤ t`. -/
theorem monitorFold_le (sq : ℚ → ℚ) (k : ℚ) (stream : List ℤ) :
    ∀ sa : StreamState × List ℕ, sa.1.alarmCount ≤ sa.1.t →
      (stream.foldl (monitorStep sq k) sa).1.alarmCount
        ≤ (stream.foldl (monitorStep sq k) sa).1.t := by
  induction stream with
  | nil => exact fun sa h => h
  | cons x rest ih =>
    intro sa h
    have h1 := monitorStep_t sq k sa x
    have h2 := monitorStep_alarmCount sq k sa x
    exact ih _ (by omega)

/-- C10: over any stream, `monitor` counts at most one alarm per observed
outcome, so the cumulative alarm count never exceeds the step counter,
and both the reported `anomaly_score = alarms / max(t, 1)` and the
`anomaly_score` method's `alarms / t` (0 when `t = 0`) lie in `[0, 1]`. -/
theorem bsm_anomaly_score_bounds (sq lg : ℚ → ℚ) (k : ℚ) (aid : ℤ)
    (s0 : StreamState) (stream : List ℤ) (h : s0.alarmCount ≤ s0.t) :
    (monitor sq lg k aid s0 stream).1.alarmCount ≤ (monitor sq lg k aid s0 stream).1.t ∧
    0 ≤ (monitor sq lg k aid s0 stream).2.anomalyScore ∧
    (monitor sq lg k aid s0 stream).2.anomalyScore ≤ 1 ∧
    0 ≤ anomalyScore (some (monitor sq lg k aid s0 stream).1) ∧
    anomalyScore (some (monitor sq lg k aid s0 stream).1) ≤ 1 := by
  have key : (stream.foldl (monitorStep sq k) (s0, [])).1.alarmCount
      ≤ (stream.foldl (monitorStep sq k) (s0, [])).1.t :=
    monitorFold_le sq k stream (s0, []) h
  have key2 : (monitor sq lg k aid s0 stream).1.alarmCount
      ≤ (monitor sq lg k aid s0 stream).1.t := key
  refine ⟨key2, ?_, ?_, ?_, ?_⟩
  · have : (monitor sq lg k aid s0 stream).2.anomalyScore
        = ((stream.foldl (monitorStep sq k) (s0, [])).1.alarmCount : ℚ) /
          ((max (stream.foldl (monitorStep sq k) (s0, [])).1.t 1 : ℕ) : ℚ) := rfl
    rw [this]
    positivity
  · have hrw : (monitor sq lg k aid s0 stream).2.anomalyScore
        = ((stream.foldl (monitorStep sq k) (s0, [])).1.alarmCount : ℚ) /
          ((max (stream.foldl (monitorStep sq k) (s0, [])).1.t 1 : ℕ) : ℚ) := rfl
    rw [hrw]
    rw [div_le_one (by positivity)]
    exact_mod_cast le_trans key (le_max_left _ 1)
  · rw [anomalyScore]
    split
    · norm_num
    · positivity
  · rw [anomalyScore]
    split
    · norm_num
    · rename_i hne
      have hpos : 0 < (((monitor sq lg k aid s0 stream).1.t : ℕ) : ℚ) := by
        exact_mod_cast Nat.pos_of_ne_zero hne
      rw [div_le_one hpos]
      exact_mod_cast key2

/-- Witness for `bsm_anomaly_score_bounds` on a fresh stream state and the
stream `[0, 1]`. -/
theorem bsm_anomaly_score_bounds_witness :
    0 ≤ (monitor (fun q => q) (fun q => q) (1/2) 0 freshStream [0, 1]).2.anomalyScore ∧
    (monitor (fun q => q) (fun q => q) (1/2) 0 freshStream [0, 1]).2.anomalyScore ≤ 1 := by
  have h := bsm_anomaly_score_bounds (fun q => q) (fun q => q) (1/2) 0 freshStream [0, 1]
    (by decide)
  exact ⟨h.2.1, h.2.2.1⟩

/-- C8: an isolated agent's `step` returns immediately — no engine calls,
state unchanged — so once `reputation < τ` flips `isolated`, every later
step leaves reputation and volatility frozen, the flag never clears, and
line 25's interaction-target pool contains exactly the ids of
non-isolated agents. -/
theorem isolation_one_way (tau : ℚ) (env : StepEnv) (envs : List StepEnv)
    (a : AgentState) (agents : List AgentState) (uid : ℤ)
    (h : a.isolated = true) :
    agentStep tau env a = (a, []) ∧
    stepMany tau envs a = a ∧
    (stepMany tau envs a).reputation = a.reputation ∧
    (stepMany tau envs a).volatility = a.volatility ∧
    (agentStep tau env a).1.isolated = true ∧
    (uid ∈ activePool agents ↔ ∃ b ∈ agents, b.isolated = false ∧ b.uid = uid) := by
  have hstep : ∀ e : StepEnv, agentStep tau e a = (a, []) := by
    intro e
    rw [agentStep, if_pos h]
  have hmany : ∀ l : List StepEnv, stepMany tau l a = a := by
    intro l
    induction l with
    | nil => rfl
    | cons e rest ih =>
      calc stepMany tau (e :: rest) a
          = stepMany tau rest ((agentStep tau e a).1) := rfl
        _ = stepMany tau rest a := by rw [hstep]
        _ = a := ih
  refine ⟨hstep env, hmany envs, by rw [hmany], by rw [hmany], by rw [hstep]; exact h, ?_⟩
  simp [activePool, List.mem_filter, Bool.not_eq_true', and_assoc]

/-- Witness for `isolation_one_way`: a concrete isolated agent is a fixed
point of `agentStep` and of iterated stepping. -/
theorem isolation_one_way_witness :
    agentStep (2/5)
        ⟨[], fun _ => zeroIRV, [], fun _ _ => 0, fun _ => 0, fun _ _ => (0, 0)⟩
        ⟨7, zeroIRV, 1/5, 0, [], true, false⟩
      = (⟨7, zeroIRV, 1/5, 0, [], true, false⟩, []) ∧
    stepMany (2/5)
        [⟨[], fun _ => zeroIRV, [], fun _ _ => 0, fun _ => 0, fun _ _ => (0, 0)⟩]
        ⟨7, zeroIRV, 1/5, 0, [], true, false⟩
      = ⟨7, zeroIRV, 1/5, 0, [], true, false⟩ := by
  have h := isolation_one_way (2/5)
    ⟨[], fun _ => zeroIRV, [], fun _ _ => 0, fun _ => 0, fun _ _ => (0, 0)⟩
    [⟨[], fun _ => zeroIRV, [], fun _ _ => 0, fun _ => 0, fun _ _ => (0, 0)⟩]
    ⟨7, zeroIRV, 1/5, 0, [], true, false⟩ [] 0 rfl
  exact ⟨h.1, h.2.1⟩

/-- C9: `IRV_PE.process` works on the non-revoked credentials, falls back
to all supplied credentials when every one is revoked (so the working set
is empty only for empty input), and returns the zero 5-vector — rather
than raising — on an empty credential list. -/
theorem process_prefers_active (lg : ℚ → ℚ) (eta rp : ℚ) (creds : List VCRecord) :
    process lg eta rp [] = zeroIRV ∧
    ((∃ vc ∈ creds, vc.revoked = false) →
      selectActive creds = creds.filter (fun vc => !vc.revoked)) ∧
    ((∀ vc ∈ creds, vc.revoked = true) → selectActive creds = creds) ∧
    (selectActive creds = [] → creds = []) := by
  refine ⟨rfl, ?_, ?_, ?_⟩
  · rintro ⟨vc, hm, hr⟩
    have hmem : vc ∈ creds.filter (fun vc => !vc.revoked) :=
      List.mem_filter.mpr ⟨hm, by simp [hr]⟩
    rw [selectActive]
    simp only [List.isEmpty_eq_false_iff_exists_mem.mpr ⟨vc, hmem⟩]
    rfl
  · intro hall
    have hnil : creds.filter (fun vc => !vc.revoked) = [] := by
      rw [List.filter_eq_nil_iff]
      intro vc hm
      simp [hall vc hm]
    rw [selectActive]
    simp [hnil]
  · intro hsel
    rw [selectActive] at hsel
    by_cases hemp : (creds.filter (fun vc => !vc.revoked)).isEmpty
    · simpa [hemp] using hsel
    · simp only [hemp] at hsel
      simp only [Bool.false_eq_true, if_false] at hsel
      rw [hsel] at hemp
      simp at hemp

/-- Witness for `process_prefers_active`: the fallback branch on an
all-revoked singleton and the filtering branch on a non-revoked
singleton. -/
theorem process_prefers_active_witness :
    selectActive [⟨(0, 0, .KYC), .KYC, .ROOT_CA, 1, 0, true, [], [(FRAME, 1)], 0, 0⟩]
      = [⟨(0, 0, .KYC), .KYC, .ROOT_CA, 1, 0, true, [], [(FRAME, 1)], 0, 0⟩] ∧
    selectActive [⟨(0, 0, .KYC), .KYC, .ROOT_CA, 1, 0, false, [], [(FRAME, 1)], 0, 0⟩]
      = List.filter (fun vc => !vc.revoked)
          [⟨(0, 0, .KYC), .KYC, .ROOT_CA, 1, 0, false, [], [(FRAME, 1)], 0, 0⟩] ∧
    process (fun q => q) (5/2) (1/10) [] = zeroIRV := by
  refine ⟨?_, ?_, ?_⟩
  · exact (process_prefers_active (fun q => q) (5/2) (1/10) _).2.2.1
      (by intro vc hv; rw [List.mem_singleton] at hv; rw [hv])
  · exact (process_prefers_active (fun q => q) (5/2) (1/10) _).2.1
      ⟨_, List.mem_singleton_self _, rfl⟩
  · exact (process_prefers_active (fun q => q) (5/2) (1/10) []).1

/-- Helper: the 7 hypotheses are pairwise distinct. -/
theorem subsets_nodup : SUBSETS.Nodup := by decide

/-- Helper: a subset of the frame is in the hypothesis lattice iff it is
non-empty. -/
theorem mem_subsets_toFinset : ∀ s : Finset Label, s ∈ SUBSETS.toFinset ↔ s ≠ ∅ := by
  decide

/-- Helper: sums over the `_SUBSETS` list are `Finset` sums. -/
theorem sum_over_subsets (f : Finset Label → ℚ) :
    (SUBSETS.map f).sum = ∑ A ∈ SUBSETS.toFinset, f A :=
  (List.sum_toFinset f subsets_nodup).symm

/-- Helper: partitioning the product masses `m1(B)·m2(C)` by the
intersection `B ∩ C`: the combined hypothesis masses plus the (uncapped)
conflict mass equal the product of the two total masses. -/
theorem fusedRaw_total (m1 m2 : BBA) :
    (SUBSETS.map (fusedRaw m1 m2)).sum
        + (SUBSETS.map (fun A => (SUBSETS.map (fun B =>
            if A ∩ B = ∅ then dictGet m1 A * dictGet m2 B else 0)).sum)).sum
      = (SUBSETS.map (dictGet m1)).sum * (SUBSETS.map (dictGet m2)).sum := by
  classical
  simp only [fusedRaw, sum_over_subsets]
  rw [Finset.sum_mul_sum]
  rw [Finset.sum_comm]
  have hswap :
      (∑ B ∈ SUBSETS.toFinset, ∑ A ∈ SUBSETS.toFinset, ∑ C ∈ SUBSETS.toFinset,
          (if B ∩ C = A then dictGet m1 B * dictGet m2 C else 0))
        = ∑ B ∈ SUBSETS.toFinset, ∑ C ∈ SUBSETS.toFinset,
            (if B ∩ C ∈ SUBSETS.toFinset then dictGet m1 B * dictGet m2 C else 0) :=
    Finset.sum_congr rfl fun B _ => by
      rw [Finset.sum_comm]
      exact Finset.sum_congr rfl fun C _ => Finset.sum_ite_eq _ _ _
  rw [hswap, ← Finset.sum_add_distrib]
  refine Finset.sum_congr rfl fun B _ => ?_
  rw [← Finset.sum_add_distrib]
  refine Finset.sum_congr rfl fun C _ => ?_
  by_cases h : B ∩ C = ∅
  · rw [if_pos h, if_neg (fun hmem => ((mem_subsets_toFinset _).mp (h ▸ hmem)) rfl),
      zero_add]
  · rw [if_pos ((mem_subsets_toFinset _).mpr h), if_neg h, add_zero]

/-- Helper: combined masses are non-negative for non-negative inputs. -/
theorem fusedRaw_nonneg (m1 m2 : BBA)
    (h1 : ∀ A ∈ SUBSETS, 0 ≤ dictGet m1 A) (h2 : ∀ A ∈ SUBSETS, 0 ≤ dictGet m2 A)
    (A : Finset Label) : 0 ≤ fusedRaw m1 m2 A := by
  rw [fusedRaw]
  apply List.sum_nonneg
  intro x hx
  obtain ⟨B, hB, rfl⟩ := List.mem_map.mp hx
  apply List.sum_nonneg
  intro y hy
  obtain ⟨C, hC, rfl⟩ := List.mem_map.mp hy
  by_cases h : B ∩ C = A
  · rw [if_pos h]
    exact mul_nonneg (h1 B hB) (h2 C hC)
  · rw [if_neg h]

/-- Helper: no key outside the list survives the normalization filter. -/
theorem dictGet_filterMap_not_mem (l : List (Finset Label)) (f : Finset Label → ℚ)
    (norm : ℚ) (C : Finset Label) (hC : C ∉ l) :
    dictGet (l.filterMap (fun A => if 0 < f A then some (A, f A / norm) else none)) C
      = 0 := by
  induction l with
  | nil => rfl
  | cons B rest ih =>
    have hBC : ¬(C = B) ∧ C ∉ rest := by
      simpa [List.mem_cons, not_or] using hC
    by_cases h : 0 < f B
    · rw [List.filterMap_cons_some (by rw [if_pos h])]
      rw [dictGet, if_neg (fun he => hBC.1 he.symm)]
      exact ih hBC.2
    · rw [List.filterMap_cons_none (by rw [if_neg h])]
      exact ih hBC.2

/-- Helper: looking up a listed hypothesis in the normalized fusion output
returns its normalized mass when positive and 0 when it was omitted. -/
theorem dictGet_filterMap (l : List (Finset Label)) (f : Finset Label → ℚ)
    (norm : ℚ) (hnd : l.Nodup) (C : Finset Label) (hC : C ∈ l) :
    dictGet (l.filterMap (fun A => if 0 < f A then some (A, f A / norm) else none)) C
      = if 0 < f C then f C / norm else 0 := by
  induction l with
  | nil => cases hC
  | cons B rest ih =>
    obtain ⟨hBn, hrn⟩ := List.nodup_cons.mp hnd
    rcases List.mem_cons.mp hC with rfl | hCr
    · by_cases h : 0 < f C
      · rw [List.filterMap_cons_some (by rw [if_pos h]), dictGet, if_pos rfl, if_pos h]
      · rw [List.filterMap_cons_none (by rw [if_neg h]), if_neg h]
        exact dictGet_filterMap_not_mem rest f norm C hBn
    · have hBC : B ≠ C := fun he => hBn (he ▸ hCr)
      by_cases h : 0 < f B
      · rw [List.filterMap_cons_some (by rw [if_pos h]), dictGet, if_neg hBC]
        exact ih hrn hCr
      · rw [List.filterMap_cons_none (by rw [if_neg h])]
        exact ih hrn hCr

/-- Helper: total mass of the normalized fusion output. -/
theorem dictSum_filterMap (l : List (Finset Label)) (f : Finset Label → ℚ)
    (norm : ℚ) (hf : ∀ A ∈ l, 0 ≤ f A) :
    dictSum (l.filterMap (fun A => if 0 < f A then some (A, f A / norm) else none))
      = (l.map f).sum / norm := by
  induction l with
  | nil => simp [dictSum]
  | cons B rest ih =>
    have hrest := ih (fun A hA => hf A (List.mem_cons_of_mem _ hA))
    by_cases h : 0 < f B
    · rw [List.filterMap_cons_some (by rw [if_pos h])]
      rw [show dictSum ((B, f B / norm) ::
            rest.filterMap (fun A => if 0 < f A then some (A, f A / norm) else none))
          = f B / norm + dictSum (rest.filterMap
              (fun A => if 0 < f A then some (A, f A / norm) else none)) from by
        simp [dictSum]]
      rw [hrest, List.map_cons, List.sum_cons, add_div]
    · rw [List.filterMap_cons_none (by rw [if_neg h])]
      have hz : f B = 0 := le_antisymm (not_lt.mp h) (hf B (List.mem_cons_self _ _))
      rw [hrest, List.map_cons, List.sum_cons, hz, zero_add]

/-- Helper: every key of the fusion output is a non-empty hypothesis. -/
theorem combine_keys_nonempty (m1 m2 : BBA) :
    ∀ p ∈ chronosrepCombine m1 m2, p.1 ≠ ∅ := by
  intro p hp
  simp only [chronosrepCombine] at hp
  by_cases hK : 1 ≤ conflictCoeff m1 m2
  · rw [if_pos hK] at hp
    rw [List.mem_singleton.mp hp]
    decide
  · rw [if_neg hK] at hp
    obtain ⟨A, hA, hsome⟩ := List.mem_filterMap.mp hp
    by_cases h : 0 < fusedRaw m1 m2 A
    · rw [if_pos h] at hsome
      cases hsome
      exact (mem_subsets_toFinset A).mp (List.mem_toFinset.mpr hA)
    · rw [if_neg h] at hsome
      cases hsome

/-- C6: for BBAs with non-negative masses over the non-empty hypotheses
summing to 1, the fusion rule returns full mass on the frame when the
(capped) conflict mass reaches 1, and otherwise assigns each hypothesis
`Σ_{A∩B=C} m1(A)m2(B) / (1 - K)` (hypotheses with zero mass being
omitted); in both cases the result carries no mass on the empty set and
its masses sum to exactly 1. -/
theorem fusion_rule_invariants (m1 m2 : BBA)
    (h1n : ∀ A ∈ SUBSETS, 0 ≤ dictGet m1 A) (h2n : ∀ A ∈ SUBSETS, 0 ≤ dictGet m2 A)
    (h1s : (SUBSETS.map (dictGet m1)).sum = 1)
    (h2s : (SUBSETS.map (dictGet m2)).sum = 1) :
    (1 ≤ conflictCoeff m1 m2 → chronosrepCombine m1 m2 = [(FRAME, 1)]) ∧
    (conflictCoeff m1 m2 < 1 → ∀ C ∈ SUBSETS,
      dictGet (chronosrepCombine m1 m2) C
        = fusedRaw m1 m2 C / (1 - conflictCoeff m1 m2)) ∧
    dictSum (chronosrepCombine m1 m2) = 1 ∧
    (∀ p ∈ chronosrepCombine m1 m2, p.1 ≠ ∅) := by
  have htotal := fusedRaw_total m1 m2
  rw [h1s, h2s, mul_one] at htotal
  set Kr : ℚ := (SUBSETS.map (fun A => (SUBSETS.map (fun B =>
      if A ∩ B = ∅ then dictGet m1 A * dictGet m2 B else 0)).sum)).sum with hKr
  have hKdef : conflictCoeff m1 m2 = min Kr 1 := rfl
  have hbranch1 : 1 ≤ conflictCoeff m1 m2 → chronosrepCombine m1 m2 = [(FRAME, 1)] := by
    intro hK
    simp only [chronosrepCombine]
    rw [if_pos hK]
  have hKrlt : conflictCoeff m1 m2 < 1 → Kr < 1 ∧ conflictCoeff m1 m2 = Kr := by
    intro hlt
    rcases le_or_lt Kr 1 with hle | hgt
    · have he : conflictCoeff m1 m2 = Kr := by rw [hKdef, min_eq_left hle]
      rw [he] at hlt
      exact ⟨hlt, he⟩
    · rw [hKdef, min_eq_right hgt.le] at hlt
      exact absurd hlt (lt_irrefl 1)
  have hget : conflictCoeff m1 m2 < 1 → ∀ C ∈ SUBSETS,
      dictGet (chronosrepCombine m1 m2) C
        = fusedRaw m1 m2 C / (1 - conflictCoeff m1 m2) := by
    intro hlt C hC
    have hcomb : chronosrepCombine m1 m2
        = SUBSETS.filterMap (fun A => if 0 < fusedRaw m1 m2 A
            then some (A, fusedRaw m1 m2 A / (1 - conflictCoeff m1 m2)) else none) := by
      simp only [chronosrepCombine]
      rw [if_neg (not_le.mpr hlt)]
    rw [hcomb, dictGet_filterMap SUBSETS (fusedRaw m1 m2) _ subsets_nodup C hC]
    by_cases h : 0 < fusedRaw m1 m2 C
    · rw [if_pos h]
    · rw [if_neg h, show fusedRaw m1 m2 C = 0 from
        le_antisymm (not_lt.mp h) (fusedRaw_nonneg m1 m2 h1n h2n C), zero_div]
  have hsum : dictSum (chronosrepCombine m1 m2) = 1 := by
    by_cases hK : 1 ≤ conflictCoeff m1 m2
    · rw [hbranch1 hK]
      simp [dictSum]
    · have hlt := not_le.mp hK
      obtain ⟨hKr1, hKeq⟩ := hKrlt hlt
      have hcomb : chronosrepCombine m1 m2
          = SUBSETS.filterMap (fun A => if 0 < fusedRaw m1 m2 A
              then some (A, fusedRaw m1 m2 A / (1 - conflictCoeff m1 m2)) else none) := by
        simp only [chronosrepCombine]
        rw [if_neg hK]
      rw [hcomb, dictSum_filterMap SUBSETS (fusedRaw m1 m2) _
        (fun A _ => fusedRaw_nonneg m1 m2 h1n h2n A)]
      have hfs : (SUBSETS.map (fusedRaw m1 m2)).sum = 1 - Kr := by linarith
      rw [hfs, hKeq]
      exact div_self (by linarith)
  exact ⟨hbranch1, hget, hsum, combine_keys_nonempty m1 m2⟩

/-- Witness for `fusion_rule_invariants` on the totally-conflicting pair
`{{trusted}: 1}`, `{{untrusted}: 1}`: conflict reaches 1 and the fused
result is total ignorance with mass 1. -/
theorem fusion_rule_invariants_witness :
    chronosrepCombine [(S_TR, 1)] [(S_UN, 1)] = [(FRAME, 1)] ∧
    dictSum (chronosrepCombine [(S_TR, 1)] [(S_UN, 1)]) = 1 := by
  have hn1 : ∀ A ∈ SUBSETS, 0 ≤ dictGet [(S_TR, 1)] A := by
    intro A _
    rw [dictGet]
    split
    · norm_num
    · exact le_refl 0
  have hn2 : ∀ A ∈ SUBSETS, 0 ≤ dictGet [(S_UN, 1)] A := by
    intro A _
    rw [dictGet]
    split
    · norm_num
    · exact le_refl 0
  have hs1 : (SUBSETS.map (dictGet [(S_TR, 1)])).sum = 1 := by
    norm_num +decide [SUBSETS, dictGet, S_TR, S_UN, S_UK, FRAME]
  have hs2 : (SUBSETS.map (dictGet [(S_UN, 1)])).sum = 1 := by
    norm_num +decide [SUBSETS, dictGet, S_TR, S_UN, S_UK, FRAME]
  have hK : 1 ≤ conflictCoeff [(S_TR, 1)] [(S_UN, 1)] := by
    norm_num +decide [conflictCoeff, SUBSETS, dictGet, S_TR, S_UN, S_UK, FRAME]
  have h := fusion_rule_invariants [(S_TR, 1)] [(S_UN, 1)] hn1 hn2 hs1 hs2
  exact ⟨h.1 hK, h.2.2.1⟩

end ChronosRep
